import Mathlib

/-!
# faiss/index_io.h — the I/O interface for indexes

A shallow embedding of `thirdparty/faiss/faiss/index_io.h`:

* the nine `IO_FLAG_*` constants, as the C `int` values the header computes
  (`Int`, with `Int.land` / `Int.lor` for `&` / `|` and `<<<` for `<<`);
* the header's function declarations, as a table of (operation, medium,
  default of `io_flags`);
* the codec the header only declares (`write_value`, `read_value`,
  `write_vector`, `read_vector`, `write_index`, `read_index`, ...), modelled
  from the specification because the bodies are not part of the header.
-/

namespace faiss

/-! ## The flag constants (index_io.h, lines 38-72) -/

/-- Line 39, `const int IO_FLAG_SKIP_STORAGE = 1;`: skip the storage for graph-based indexes. -/
def IO_FLAG_SKIP_STORAGE : Int := 1

/-- Line 50, `const int IO_FLAG_READ_ONLY = 2;`. -/
def IO_FLAG_READ_ONLY : Int := 2

/-- Line 53, `const int IO_FLAG_ONDISK_SAME_DIR = 4;`: strip the directory component from the
ondisk filename. -/
def IO_FLAG_ONDISK_SAME_DIR : Int := 4

/-- Line 55, `const int IO_FLAG_SKIP_IVF_DATA = 8;`: do not load IVF data to RAM, only list sizes. -/
def IO_FLAG_SKIP_IVF_DATA : Int := 8

/-- Line 57, `const int IO_FLAG_SKIP_PRECOMPUTE_TABLE = 16;`: do not initialize the
precomputed table after loading. -/
def IO_FLAG_SKIP_PRECOMPUTE_TABLE : Int := 16

/-- Line 63, `const int IO_FLAG_PQ_SKIP_SDC_TABLE = 32;`: do not compute the sdc table
for PQ-based indices. -/
def IO_FLAG_PQ_SKIP_SDC_TABLE : Int := 32

/-- Line 65, `const int IO_FLAG_WITH_NORM = 1 << 8;`: load index data with the vectors' norms. -/
def IO_FLAG_WITH_NORM : Int := 1 <<< 8

/-- Line 68, `const int IO_FLAG_MMAP = IO_FLAG_SKIP_IVF_DATA | 0x646f0000;`: try to
memmap data. -/
def IO_FLAG_MMAP : Int := Int.lor IO_FLAG_SKIP_IVF_DATA 0x646f0000

/-- Line 72, `const int IO_FLAG_MMAP_IFC = 1 << 9;`: mmap that handles codes for
IndexFlatCodes-derived indices and HNSW. -/
def IO_FLAG_MMAP_IFC : Int := 1 <<< 9

/-- The eight flags other than `IO_FLAG_MMAP`, in the order the header declares them. -/
def nonMmapFlags : List Int :=
  [IO_FLAG_SKIP_STORAGE, IO_FLAG_READ_ONLY, IO_FLAG_ONDISK_SAME_DIR, IO_FLAG_SKIP_IVF_DATA,
   IO_FLAG_SKIP_PRECOMPUTE_TABLE, IO_FLAG_PQ_SKIP_SDC_TABLE, IO_FLAG_WITH_NORM,
   IO_FLAG_MMAP_IFC]

/-- The nine flag constants of the header. -/
def allFlags : List Int := nonMmapFlags ++ [IO_FLAG_MMAP]

/-- The bitwise OR of a collection of flag values (`a | b | ... `, the empty OR is 0). -/
def orAll (S : List Int) : Int := S.foldr Int.lor 0

/-- The full-mask test `(f & F) == F`. -/
def hasMask (f F : Int) : Bool := decide (Int.land f F = F)

/-- The any-bit test `(f & F) != 0`. -/
def hasAnyBit (f F : Int) : Bool := decide (Int.land f F ≠ 0)

/-! ## The declarations (index_io.h, lines 41-104) -/

/-- The medium an overload reads from or writes to: a file name (`const char* fname`),
an open file handle (`FILE* f`) or an object that abstracts the medium
(`IOReader*` / `IOWriter*`). -/
inductive Medium where
  | path
  | fileHandle
  | stream
  deriving DecidableEq, Repr

/-- The function names the header declares. -/
inductive Op where
  | write_index
  | write_index_binary
  | read_index
  | read_index_binary
  | write_VectorTransform
  | read_VectorTransform
  | read_ProductQuantizer
  | write_ProductQuantizer
  | write_InvertedLists
  | read_InvertedLists
  | read_is_mv
  | write_vector
  | read_vector
  | read_value
  | write_value
  | write_mv
  deriving DecidableEq, Repr

/-- One declared overload: the function, its medium, and the default value of its
`int io_flags` parameter when it has one. -/
structure Decl where
  op : Op
  medium : Medium
  io_flags : Option Int
  deriving DecidableEq

/-- Every function declaration of the header, in source order. -/
def declarations : List Decl :=
  [ ⟨Op.write_index, Medium.path, some 0⟩,
    ⟨Op.write_index, Medium.fileHandle, some 0⟩,
    ⟨Op.write_index, Medium.stream, some 0⟩,
    ⟨Op.write_index_binary, Medium.path, none⟩,
    ⟨Op.write_index_binary, Medium.fileHandle, none⟩,
    ⟨Op.write_index_binary, Medium.stream, none⟩,
    ⟨Op.read_index, Medium.path, some 0⟩,
    ⟨Op.read_index, Medium.fileHandle, some 0⟩,
    ⟨Op.read_index, Medium.stream, some 0⟩,
    ⟨Op.read_index_binary, Medium.path, some 0⟩,
    ⟨Op.read_index_binary, Medium.fileHandle, some 0⟩,
    ⟨Op.read_index_binary, Medium.stream, some 0⟩,
    ⟨Op.write_VectorTransform, Medium.path, none⟩,
    ⟨Op.write_VectorTransform, Medium.stream, none⟩,
    ⟨Op.read_VectorTransform, Medium.path, none⟩,
    ⟨Op.read_VectorTransform, Medium.stream, none⟩,
    ⟨Op.read_ProductQuantizer, Medium.path, none⟩,
    ⟨Op.read_ProductQuantizer, Medium.stream, none⟩,
    ⟨Op.write_ProductQuantizer, Medium.path, none⟩,
    ⟨Op.write_ProductQuantizer, Medium.stream, none⟩,
    ⟨Op.write_InvertedLists, Medium.stream, none⟩,
    ⟨Op.read_InvertedLists, Medium.stream, some 0⟩,
    ⟨Op.read_is_mv, Medium.stream, none⟩,
    ⟨Op.read_is_mv, Medium.path, none⟩,
    ⟨Op.write_vector, Medium.stream, none⟩,
    ⟨Op.read_vector, Medium.stream, none⟩,
    ⟨Op.read_value, Medium.stream, none⟩,
    ⟨Op.write_value, Medium.stream, none⟩,
    ⟨Op.write_mv, Medium.stream, none⟩ ]

/-- Whether the header declares an overload of `op` for medium `m`. -/
def hasOverload (op : Op) (m : Medium) : Bool :=
  declarations.any fun d => decide (d.op = op) && decide (d.medium = m)

/-- The functions that take an `io_flags` parameter, without repetition. -/
def opsWithFlags : List Op :=
  ((declarations.filter fun d => d.io_flags.isSome).map Decl.op).eraseDups

/-- The read/write operations of the Index, IndexBinary, VectorTransform and
ProductQuantizer families. -/
def familyOps : List Op :=
  [Op.write_index, Op.read_index, Op.write_index_binary, Op.read_index_binary,
   Op.write_VectorTransform, Op.read_VectorTransform, Op.write_ProductQuantizer,
   Op.read_ProductQuantizer]

/-- The three media. -/
def allMedia : List Medium := [Medium.path, Medium.fileHandle, Medium.stream]

/-! ## The medium and the primitive codec

The header declares `write_value`, `read_value`, `write_vector` and `read_vector`
(lines 100-103) without bodies; the bodies below follow the specification's
"Medium Abstraction" and "Primitive Codec" sections. -/

/-- Modelled from the spec: the generic writer (`IOWriter`), whose body is not in the
header; a sequential, position-advancing byte sink, here the bytes written so far. -/
abbrev IOWriter := List Nat

/-- Modelled from the spec: the generic reader (`IOReader`), whose body is not in the
header; a sequential, position-advancing byte source, here the bytes still to be read. -/
abbrev IOReader := List Nat

/-- Modelled from the spec: the error taxonomy of the read path (section 7), which the
header does not declare: an I/O error (the medium cannot deliver the requested bytes)
and the two format errors, an unrecognised tag ("unsupported format", naming the tag)
and an implausible length field (naming the declared count). -/
inductive IOError where
  | io
  | unsupportedFormat (tag : Nat)
  | implausibleLength (count : Nat)
  deriving DecidableEq, Repr

/-- Modelled from the spec: the "single declared byte order" of the primitive codec; the
spec does not say which one, so it is a parameter. -/
inductive ByteOrder where
  | little
  | big
  deriving DecidableEq, Repr

/-- Modelled from the spec: the constants of the primitive codec that the spec leaves
open: the byte order, the width in bytes of a sequence's count field, and the largest
count `read_vector` accepts before it reports an unreasonable allocation ("a
configuration constant, not a wire-format field"). -/
structure CodecConfig where
  order : ByteOrder
  countWidth : Nat
  maxCount : Nat
  deriving DecidableEq, Repr

/-- Modelled from the spec: the mandatory read of the medium abstraction,
`read(bytes, count)`: the next `n` bytes and the advanced reader, or an I/O error when
the medium cannot satisfy the requested byte count. -/
def readBytes (n : Nat) (f : IOReader) : Except IOError (List Nat × IOReader) :=
  if n ≤ f.length then .ok (f.take n, f.drop n) else .error .io

/-- Modelled from the spec: the fixed-width layout of an unsigned integer (not in the
header): the `w` low-order base-256 digits of `x`, least significant first. -/
def encodeLE : Nat → Nat → List Nat
  | 0, _ => []
  | w + 1, x => x % 256 :: encodeLE w (x / 256)

/-- Modelled from the spec: the value of a fixed-width field (not in the header): the
number whose base-256 digits, least significant first, are `bs`. -/
def decodeLE : List Nat → Nat
  | [] => 0
  | b :: bs => b + 256 * decodeLE bs

/-- Modelled from the spec: the fixed-width unsigned integer encoder of the primitive
codec (not in the header): `w` bytes in the declared byte order. -/
def encodeUInt (order : ByteOrder) (w x : Nat) : List Nat :=
  match order with
  | .little => encodeLE w x
  | .big => (encodeLE w x).reverse

/-- Modelled from the spec: the decoder symmetric to `encodeUInt`. -/
def decodeUInt (order : ByteOrder) (bs : List Nat) : Nat :=
  match order with
  | .little => decodeLE bs
  | .big => decodeLE bs.reverse

/-- Modelled from the spec: `void write_value(uint32_t v, IOWriter* writer)`, declared in
the header without a body: writes a single unsigned 32-bit field (4 bytes). -/
def write_value (cfg : CodecConfig) (v : Nat) (writer : IOWriter) : IOWriter :=
  writer ++ encodeUInt cfg.order 4 v

/-- Modelled from the spec: `uint32_t read_value(IOReader* f)`, declared in the header
without a body: reads a single unsigned 32-bit field. -/
def read_value (cfg : CodecConfig) (f : IOReader) : Except IOError (Nat × IOReader) :=
  match readBytes 4 f with
  | .error e => .error e
  | .ok (bs, f1) => .ok (decodeUInt cfg.order bs, f1)

/-- Modelled from the spec: the element loop of `write_vector` (not in the header): the
elements of a sequence, written one after the other with `write_value`. -/
def writeValues (cfg : CodecConfig) : List Nat → IOWriter → IOWriter
  | [], writer => writer
  | x :: xs, writer => writeValues cfg xs (write_value cfg x writer)

/-- Modelled from the spec: `void write_vector(const std::vector<uint32_t>& v, IOWriter*
writer)`, declared in the header without a body: "writes count then elements". -/
def write_vector (cfg : CodecConfig) (v : List Nat) (writer : IOWriter) : IOWriter :=
  writeValues cfg v (writer ++ encodeUInt cfg.order cfg.countWidth v.length)

/-- Modelled from the spec: the fill loop of `read_vector` (not in the header): reads
`n` elements with `read_value`. -/
def readValues (cfg : CodecConfig) : Nat → IOReader → Except IOError (List Nat × IOReader)
  | 0, f => .ok ([], f)
  | n + 1, f =>
    match read_value cfg f with
    | .error e => .error e
    | .ok (x, f1) =>
      match readValues cfg n f1 with
      | .error e => .error e
      | .ok (xs, f2) => .ok (x :: xs, f2)

/-- Modelled from the spec: `void read_vector(std::vector<uint32_t>& v, IOReader* f)`,
declared in the header without a body: "reads count, allocates, fills", and "fails with
a format error if a declared count would require an unreasonable allocation". The
vector it fills is returned with the advanced reader. -/
def read_vector (cfg : CodecConfig) (f : IOReader) : Except IOError (List Nat × IOReader) :=
  match readBytes cfg.countWidth f with
  | .error e => .error e
  | .ok (cb, f1) =>
    if decodeUInt cfg.order cb ≤ cfg.maxCount then
      readValues cfg (decodeUInt cfg.order cb) f1
    else
      .error (.implausibleLength (decodeUInt cfg.order cb))

/-! ## The tag registry and the structured entity codecs

`write_index`, `read_index`, `read_index_binary`, `read_VectorTransform`,
`read_ProductQuantizer` and `read_InvertedLists` are declared in the header without
bodies; the bodies below follow the specification's "Type Tag Registry", "Structured
Entity Codecs" and "Load-Flag Policy Engine" sections. Only the generic reader/writer
overloads are modelled: the file-name and file-handle overloads wrap a medium around
the same codec. -/

/-- Modelled from the spec: the entity families of the tag registry (Index,
IndexBinary, VectorTransform, ProductQuantizer, InvertedLists), which the header only
forward-declares. -/
inductive Family where
  | index
  | indexBinary
  | vectorTransform
  | productQuantizer
  | invertedLists
  deriving DecidableEq, Repr

/-- Modelled from the spec: a fixed-width scalar header field of an entity (the C++
structs are not in the header): its width in bytes and its value. -/
structure Scalar where
  width : Nat
  value : Nat
  deriving DecidableEq, Repr

/-- Modelled from the spec: the object graph of section 3, whose C++ types (`Index`,
`IndexBinary`, `VectorTransform`, `ProductQuantizer`, `InvertedLists`) the header only
forward-declares: an entity of a family, of the concrete variant its tag names, with
its scalar header fields (dimensionality, element count, metric kind, trained state,
...), the sub-entities it owns (a strict tree of ownership) and its bulk data (vectors,
codes, lists), each a sequence of unsigned 32-bit words. -/
inductive Entity where
  | mk (family : Family) (tag : Nat) (scalars : List Scalar) (subs : List Entity)
      (bulk : List (List Nat))

/-- Modelled from the spec: the field layout of one concrete variant (the codecs are
not in the header): the widths of its scalar header fields and, since the header fields
come first in the fixed field order, the families of its owned sub-entities and the
number of its bulk sequences as the header values determine them (the length of a
transform chain, the number of partitions of inverted lists), in field order. -/
structure Layout where
  scalarWidths : List Nat
  subFamilies : List Nat → List Family
  bulkCount : List Nat → Nat

/-- Modelled from the spec: the type tag registry, which is not in the header: each
family maps a tag to the one codec (here its field layout) registered for it, or to
nothing when the tag is not registered. -/
abbrev Registry := Family → Nat → Option Layout

/-- Modelled from the spec: the header part of an entity encoder (not in the header
file): the scalar header fields, each in its own width, in field order. -/
def scalarsBytes (cfg : CodecConfig) : List Scalar → List Nat
  | [] => []
  | s :: ss => encodeUInt cfg.order s.width s.value ++ scalarsBytes cfg ss

/-- Modelled from the spec: the bulk part of an entity encoder (not in the header
file): the bulk sequences, each length-prefixed, in field order. -/
def bulkBytes (cfg : CodecConfig) : List (List Nat) → List Nat
  | [] => []
  | v :: vs => write_vector cfg v [] ++ bulkBytes cfg vs

mutual
/-- Modelled from the spec: the encoder of one entity (the body behind `write_index`
and its siblings, not in the header): the tag of the concrete variant first, then the
scalar header fields, then the owned sub-entities, each by its own tag-prefixed
encoding, then the bulk data; it fails when the variant has no registered tag. -/
def entityBytes (cfg : CodecConfig) (reg : Registry) : Entity → Except IOError (List Nat)
  | .mk family tag scalars subs bulk =>
    match reg family tag with
    | none => .error (.unsupportedFormat tag)
    | some _ =>
      match subsBytes cfg reg subs with
      | .error e => .error e
      | .ok sb =>
        .ok (encodeUInt cfg.order 4 tag ++ scalarsBytes cfg scalars ++ sb ++ bulkBytes cfg bulk)
/-- Modelled from the spec: the sub-entity part of an entity encoder (not in the header
file): the owned sub-entities, one after the other. -/
def subsBytes (cfg : CodecConfig) (reg : Registry) : List Entity → Except IOError (List Nat)
  | [] => .ok []
  | e :: es =>
    match entityBytes cfg reg e with
    | .error err => .error err
    | .ok a =>
      match subsBytes cfg reg es with
      | .error err => .error err
      | .ok b => .ok (a ++ b)
end

/-- Modelled from the spec: `void write_index(const Index* idx, IOWriter* writer, int
io_flags)`, declared in the header without a body. The load-flag policy is consulted
only on read, so the flags do not change what is written. -/
def write_index (cfg : CodecConfig) (reg : Registry) (idx : Entity) (writer : IOWriter)
    (_io_flags : Int) : Except IOError IOWriter :=
  match entityBytes cfg reg idx with
  | .error e => .error e
  | .ok bs => .ok (writer ++ bs)

/-- Modelled from the spec: the header part of an entity decoder (not in the header
file): reads the scalar header fields of the given widths, in field order. -/
def readScalars (cfg : CodecConfig) :
    List Nat → IOReader → Except IOError (List Scalar × IOReader)
  | [], f => .ok ([], f)
  | w :: ws, f =>
    match readBytes w f with
    | .error e => .error e
    | .ok (bs, f1) =>
      match readScalars cfg ws f1 with
      | .error e => .error e
      | .ok (ss, f2) => .ok (⟨w, decodeUInt cfg.order bs⟩ :: ss, f2)

/-- Modelled from the spec: the decision points of the load-flag policy at which bulk
data is consumed from the stream without being materialised: skip-storage for the bulk
payload of an index, skip-ivf-data for the contents of inverted lists. -/
def skipsBulk (io_flags : Int) (fam : Family) : Bool :=
  match fam with
  | .index => hasAnyBit io_flags IO_FLAG_SKIP_STORAGE
  | .indexBinary => hasAnyBit io_flags IO_FLAG_SKIP_STORAGE
  | .invertedLists => hasMask io_flags IO_FLAG_SKIP_IVF_DATA
  | _ => false

/-- Modelled from the spec: the bulk part of an entity decoder (not in the header
file): reads `n` length-prefixed bulk sequences; with `skip` each is consumed, advancing
the reader, and left empty in the result. -/
def readBulk (cfg : CodecConfig) (skip : Bool) :
    Nat → IOReader → Except IOError (List (List Nat) × IOReader)
  | 0, f => .ok ([], f)
  | n + 1, f =>
    match read_vector cfg f with
    | .error e => .error e
    | .ok (v, f1) =>
      match readBulk cfg skip n f1 with
      | .error e => .error e
      | .ok (vs, f2) => .ok ((if skip then [] else v) :: vs, f2)

/-- Modelled from the spec: the sub-entity part of an entity decoder (not in the header
file): reads one sub-entity of each of the given families with `rd`, in field order. -/
def readSubsWith (rd : Family → IOReader → Except IOError (Entity × IOReader)) :
    List Family → IOReader → Except IOError (List Entity × IOReader)
  | [], f => .ok ([], f)
  | fam :: fams, f =>
    match rd fam f with
    | .error e => .error e
    | .ok (e, f1) =>
      match readSubsWith rd fams f1 with
      | .error err => .error err
      | .ok (es, f2) => .ok (e :: es, f2)

/-- Modelled from the spec: the decoder of one entity of family `fam` (the body behind
`read_index` and its siblings, not in the header): the tag is read and looked up, an
unrecognised tag fails with an "unsupported format" error, and the matching codec
reads the scalar header fields, then the owned sub-entities and the bulk data that the
layout declares for those header values, in that order. The first argument bounds the nesting depth; every level consumes its tag, so
the length of the stream plus one is always enough (`read_entity`). -/
def readEntity (cfg : CodecConfig) (reg : Registry) (io_flags : Int) :
    Nat → Family → IOReader → Except IOError (Entity × IOReader)
  | 0, _, _ => .error .io
  | fuel + 1, fam, f =>
    match read_value cfg f with
    | .error e => .error e
    | .ok (tag, f1) =>
      match reg fam tag with
      | none => .error (.unsupportedFormat tag)
      | some lay =>
        match readScalars cfg lay.scalarWidths f1 with
        | .error e => .error e
        | .ok (scalars, f2) =>
          match readSubsWith (readEntity cfg reg io_flags fuel)
              (lay.subFamilies (scalars.map Scalar.value)) f2 with
          | .error e => .error e
          | .ok (subs, f3) =>
            match readBulk cfg (skipsBulk io_flags fam)
                (lay.bulkCount (scalars.map Scalar.value)) f3 with
            | .error e => .error e
            | .ok (bulk, f4) => .ok (.mk fam tag scalars subs bulk, f4)

/-- Modelled from the spec: the top-level read entry point shared by `read_index` and
its siblings (not in the header): decodes one entity of family `fam` from the reader. -/
def read_entity (cfg : CodecConfig) (reg : Registry) (fam : Family) (reader : IOReader)
    (io_flags : Int) : Except IOError (Entity × IOReader) :=
  readEntity cfg reg io_flags (reader.length + 1) fam reader

/-- Modelled from the spec: `Index* read_index(IOReader* reader, int io_flags)`,
declared in the header without a body; the object read and the advanced reader. -/
def read_index (cfg : CodecConfig) (reg : Registry) (reader : IOReader) (io_flags : Int) :
    Except IOError (Entity × IOReader) :=
  read_entity cfg reg .index reader io_flags

/-- Modelled from the spec: `IndexBinary* read_index_binary(IOReader* reader, int
io_flags)`, declared in the header without a body. -/
def read_index_binary (cfg : CodecConfig) (reg : Registry) (reader : IOReader)
    (io_flags : Int) : Except IOError (Entity × IOReader) :=
  read_entity cfg reg .indexBinary reader io_flags

/-- Modelled from the spec: `VectorTransform* read_VectorTransform(IOReader* f)`,
declared in the header without a body; it takes no flags. -/
def read_VectorTransform (cfg : CodecConfig) (reg : Registry) (f : IOReader) :
    Except IOError (Entity × IOReader) :=
  read_entity cfg reg .vectorTransform f 0

/-- Modelled from the spec: `InvertedLists* read_InvertedLists(IOReader* reader, int
io_flags)`, declared in the header without a body. -/
def read_InvertedLists (cfg : CodecConfig) (reg : Registry) (reader : IOReader)
    (io_flags : Int) : Except IOError (Entity × IOReader) :=
  read_entity cfg reg .invertedLists reader io_flags

/-! ### Which objects the registry supports -/

mutual
/-- Nesting depth of an entity. -/
def Entity.depth : Entity → Nat
  | .mk _ _ _ subs _ => depthList subs + 1
/-- The largest nesting depth among a list of entities. -/
def depthList : List Entity → Nat
  | [] => 0
  | e :: es => max e.depth (depthList es)
end

/-- Modelled from the spec: a sequence of unsigned 32-bit integers that `write_vector`
can declare (the C++ vector type is not in the header): every element is below `2 ^ 32`
and the element count is a value of the count field. -/
def isVector (cfg : CodecConfig) (v : List Nat) : Bool :=
  v.all (fun x => decide (x < 2 ^ 32)) && decide (v.length < 256 ^ cfg.countWidth)

mutual
/-- Modelled from the spec: what the registry, which is not in the header, supports. An
object of a supported variant of family `fam` is of that family, its tag is a 32-bit
value registered for the family, its scalar header fields have the widths the
registered layout declares and values that fit them, it owns one sub-entity of each
family and as many bulk sequences as the layout declares for those header values, each
bulk sequence is a sequence of 32-bit words that can be declared, and its sub-entities
are supported in turn. -/
def supported (cfg : CodecConfig) (reg : Registry) : Family → Entity → Bool
  | fam, .mk family tag scalars subs bulk =>
    decide (family = fam) && decide (tag < 2 ^ 32) &&
    match reg fam tag with
    | none => false
    | some lay =>
      decide (lay.scalarWidths = scalars.map Scalar.width) &&
      scalars.all (fun s => decide (s.value < 256 ^ s.width)) &&
      decide (lay.bulkCount (scalars.map Scalar.value) = bulk.length) &&
      bulk.all (isVector cfg) &&
      supportedList cfg reg (lay.subFamilies (scalars.map Scalar.value)) subs
/-- One supported sub-entity for each declared family, in order. -/
def supportedList (cfg : CodecConfig) (reg : Registry) : List Family → List Entity → Bool
  | [], [] => true
  | fam :: fams, e :: es => supported cfg reg fam e && supportedList cfg reg fams es
  | _, _ => false
end

mutual
/-- Every bulk sequence of the object graph holds at most `cfg.maxCount` elements, the
largest count `read_vector` accepts. -/
def withinBound (cfg : CodecConfig) : Entity → Bool
  | .mk _ _ _ subs bulk =>
    bulk.all (fun v => decide (v.length ≤ cfg.maxCount)) && withinBoundList cfg subs
/-- Every entity of the list is within the bound. -/
def withinBoundList (cfg : CodecConfig) : List Entity → Bool
  | [] => true
  | e :: es => withinBound cfg e && withinBoundList cfg es
end

/-- A codec configuration: little-endian, 8-byte counts, at most `2 ^ 40` elements. -/
def exampleConfig : CodecConfig := ⟨.little, 8, 2 ^ 40⟩

/-- A registry with a flat index (tag 10: dimensionality, element count, metric kind,
trained state; one bulk sequence), an IVF index (tag 11: the same header; a quantizer
index and inverted lists), a pre-transformed index (tag 13: the same header and the
length of the transform chain; that many transforms, then the index they feed), array
inverted lists (tag 20: the number of partitions; one bulk sequence per partition) and a
linear transform (tag 30: input and output dimensionality; one bulk sequence). -/
def exampleRegistry : Registry := fun fam tag =>
  match fam, tag with
  | .index, 10 => some ⟨[4, 8, 4, 1], fun _ => [], fun _ => 1⟩
  | .index, 11 => some ⟨[4, 8, 4, 1], fun _ => [.index, .invertedLists], fun _ => 0⟩
  | .index, 13 =>
    some ⟨[4, 8, 4, 1, 4],
      fun vals => List.replicate (vals.getD 4 0) .vectorTransform ++ [.index], fun _ => 0⟩
  | .invertedLists, 20 => some ⟨[8], fun _ => [], fun vals => vals.getD 0 0⟩
  | .vectorTransform, 30 => some ⟨[4, 4], fun _ => [], fun _ => 1⟩
  | _, _ => none

theorem land_coe (a b : Nat) : Int.land (a : Int) (b : Int) = ((a &&& b : Nat) : Int) := rfl

theorem lor_coe (a b : Nat) : Int.lor (a : Int) (b : Int) = ((a ||| b : Nat) : Int) := rfl

theorem land_negSucc_coe (n b : Nat) :
    Int.land (Int.negSucc n) (b : Int) = ((Nat.ldiff b n : Nat) : Int) := rfl

/-- A flag set that passes the full-mask test for `a` passes it for every `b` whose
bits are among those of `a`. -/
theorem land_sub_mask (f : Int) (a b : Nat) (hab : a &&& b = b)
    (h : Int.land f (a : Int) = (a : Int)) : Int.land f (b : Int) = (b : Int) := by
  cases f with
  | ofNat n =>
    have h1 : n &&& a = a := by
      have h2 := h
      rw [Int.ofNat_eq_coe, land_coe] at h2
      exact_mod_cast h2
    rw [Int.ofNat_eq_coe, land_coe]
    congr 1
    rw [← hab, ← Nat.and_assoc, h1]
  | negSucc n =>
    have h1 : Nat.ldiff a n = a := by
      have h2 := h
      rw [land_negSucc_coe] at h2
      exact_mod_cast h2
    rw [land_negSucc_coe]
    congr 1
    apply Nat.eq_of_testBit_eq
    intro i
    have e1 := congrArg (fun x => Nat.testBit x i) h1
    have e2 := congrArg (fun x => Nat.testBit x i) hab
    simp only [Nat.testBit_ldiff, Nat.testBit_and] at e1 e2 ⊢
    revert e1 e2
    cases a.testBit i <;> cases b.testBit i <;> cases n.testBit i <;> simp

theorem nat_or_eq_zero (x y : Nat) : x ||| y = 0 ↔ x = 0 ∧ y = 0 := by
  constructor
  · intro h
    have key : ∀ i, (x.testBit i || y.testBit i) = false := by
      intro i
      rw [← Nat.testBit_or, h, Nat.zero_testBit]
    constructor <;> apply Nat.eq_of_testBit_eq <;> intro i <;> have hi := key i <;>
      rw [Nat.zero_testBit] <;> revert hi <;>
      cases x.testBit i <;> cases y.testBit i <;> simp
  · rintro ⟨rfl, rfl⟩
    simp

/-- On non-negative values, `(a | b) & c` is non-zero exactly when `a & c` or `b & c` is. -/
theorem land_lor_ne_zero (a b c : Int) (ha : 0 ≤ a) (hb : 0 ≤ b) (hc : 0 ≤ c) :
    Int.land (Int.lor a b) c ≠ 0 ↔ Int.land a c ≠ 0 ∨ Int.land b c ≠ 0 := by
  obtain ⟨x, rfl⟩ := Int.eq_ofNat_of_zero_le ha
  obtain ⟨y, rfl⟩ := Int.eq_ofNat_of_zero_le hb
  obtain ⟨z, rfl⟩ := Int.eq_ofNat_of_zero_le hc
  simp only [land_coe, lor_coe, Nat.and_distrib_right, ne_eq, Int.natCast_eq_zero,
    nat_or_eq_zero]
  tauto

theorem orAll_nil : orAll [] = 0 := rfl

theorem orAll_cons (a : Int) (S : List Int) : orAll (a :: S) = Int.lor a (orAll S) := rfl

/-- The OR of non-negative values below `2 ^ k` is non-negative and below `2 ^ k`. -/
theorem orAll_lt (k : Nat) (S : List Int) (h : ∀ x ∈ S, 0 ≤ x ∧ x < 2 ^ k) :
    0 ≤ orAll S ∧ orAll S < 2 ^ k := by
  induction S with
  | nil => exact ⟨le_refl _, by rw [orAll_nil]; positivity⟩
  | cons a S ih =>
    obtain ⟨ha0, hak⟩ := h a (List.mem_cons_self _ _)
    obtain ⟨hs0, hsk⟩ := ih (fun x hx => h x (List.mem_cons_of_mem _ hx))
    obtain ⟨x, rfl⟩ := Int.eq_ofNat_of_zero_le ha0
    obtain ⟨y, hy⟩ := Int.eq_ofNat_of_zero_le hs0
    rw [orAll_cons, hy, lor_coe]
    rw [hy] at hsk
    have hx : x < 2 ^ k := by exact_mod_cast hak
    have hy2 : y < 2 ^ k := by exact_mod_cast hsk
    have := Nat.or_lt_two_pow hx hy2
    exact ⟨Int.natCast_nonneg _, by exact_mod_cast this⟩

/-- C1: the mmap flag implies skip-ivf-data. Every `int` flag set `f` that passes the
mask test `(f & IO_FLAG_MMAP) == IO_FLAG_MMAP` passes
`(f & IO_FLAG_SKIP_IVF_DATA) == IO_FLAG_SKIP_IVF_DATA`; in particular
`IO_FLAG_MMAP & IO_FLAG_SKIP_IVF_DATA == IO_FLAG_SKIP_IVF_DATA == 8`. -/
theorem mmap_implies_skip_ivf_data (f : Int)
    (h : Int.land f IO_FLAG_MMAP = IO_FLAG_MMAP) :
    Int.land f IO_FLAG_SKIP_IVF_DATA = IO_FLAG_SKIP_IVF_DATA ∧
      Int.land IO_FLAG_MMAP IO_FLAG_SKIP_IVF_DATA = IO_FLAG_SKIP_IVF_DATA ∧
      IO_FLAG_SKIP_IVF_DATA = 8 := by
  have hM : IO_FLAG_MMAP = ((1684996104 : Nat) : Int) := by decide
  have hS : IO_FLAG_SKIP_IVF_DATA = ((8 : Nat) : Int) := by decide
  refine ⟨?_, by decide, by decide⟩
  rw [hM] at h
  rw [hS]
  exact land_sub_mask f 1684996104 8 (by decide) h

/-- Witness of C1 at the flag set `IO_FLAG_MMAP | IO_FLAG_READ_ONLY`. -/
theorem mmap_implies_skip_ivf_data_witness :
    Int.land (Int.lor IO_FLAG_MMAP IO_FLAG_READ_ONLY) IO_FLAG_MMAP = IO_FLAG_MMAP ∧
      Int.land (Int.lor IO_FLAG_MMAP IO_FLAG_READ_ONLY) IO_FLAG_SKIP_IVF_DATA
        = IO_FLAG_SKIP_IVF_DATA :=
  ⟨by decide,
    (mmap_implies_skip_ivf_data (Int.lor IO_FLAG_MMAP IO_FLAG_READ_ONLY) (by decide)).1⟩

/-- C2: the eight flags other than `IO_FLAG_MMAP` are pairwise distinct single-bit
values, and for every collection `S` of them and every flag `F` among them,
`(OR of S) & F` is non-zero if and only if `F` is in `S`. -/
theorem flags_compose_independently (S : List Int) (hS : ∀ x ∈ S, x ∈ nonMmapFlags)
    (F : Int) (hF : F ∈ nonMmapFlags) :
    nonMmapFlags.Pairwise (fun a b => a ≠ b) ∧
      (∀ G ∈ nonMmapFlags, ∃ k : Nat, k < 31 ∧ G = 2 ^ k) ∧
      (Int.land (orAll S) F ≠ 0 ↔ F ∈ S) := by
  have hbits : ∀ G ∈ nonMmapFlags, ∃ k : Nat, k < 31 ∧ G = 2 ^ k := by
    intro G hG
    simp only [nonMmapFlags, List.mem_cons, List.mem_singleton, List.not_mem_nil,
      or_false] at hG
    rcases hG with h | h | h | h | h | h | h | h
    · exact ⟨0, by decide, by rw [h]; decide⟩
    · exact ⟨1, by decide, by rw [h]; decide⟩
    · exact ⟨2, by decide, by rw [h]; decide⟩
    · exact ⟨3, by decide, by rw [h]; decide⟩
    · exact ⟨4, by decide, by rw [h]; decide⟩
    · exact ⟨5, by decide, by rw [h]; decide⟩
    · exact ⟨8, by decide, by rw [h]; decide⟩
    · exact ⟨9, by decide, by rw [h]; decide⟩
  refine ⟨by decide, hbits, ?_⟩
  have hpos : ∀ x ∈ nonMmapFlags, 0 ≤ x ∧ x < 2 ^ 10 := by decide
  have htable : ∀ a ∈ nonMmapFlags, ∀ G ∈ nonMmapFlags, (Int.land a G ≠ 0 ↔ a = G) := by
    decide
  induction S with
  | nil =>
    have h0 : ∀ G ∈ nonMmapFlags, Int.land 0 G = 0 := by decide
    simp [orAll_nil, h0 F hF]
  | cons a S ih =>
    have ha := hS a (List.mem_cons_self _ _)
    have hS2 : ∀ x ∈ S, x ∈ nonMmapFlags := fun x hx => hS x (List.mem_cons_of_mem _ hx)
    have hor := orAll_lt 10 S (fun x hx => hpos x (hS2 x hx))
    have ih2 : Int.land (orAll S) F ≠ 0 ↔ F ∈ S := ih hS2
    rw [orAll_cons, land_lor_ne_zero a (orAll S) F (hpos a ha).1 hor.1 (hpos F hF).1,
      htable a ha F hF, ih2, List.mem_cons]
    constructor
    · rintro (h | h)
      · exact Or.inl h.symm
      · exact Or.inr h
    · rintro (h | h)
      · exact Or.inl h.symm
      · exact Or.inr h

/-- Witness of C2 at `S = {IO_FLAG_READ_ONLY, IO_FLAG_WITH_NORM}`: the with-norm bit is
found in the OR. -/
theorem flags_compose_independently_witness :
    Int.land (orAll [IO_FLAG_READ_ONLY, IO_FLAG_WITH_NORM]) IO_FLAG_WITH_NORM ≠ 0 ↔
      IO_FLAG_WITH_NORM ∈ [IO_FLAG_READ_ONLY, IO_FLAG_WITH_NORM] :=
  (flags_compose_independently [IO_FLAG_READ_ONLY, IO_FLAG_WITH_NORM] (by decide)
    IO_FLAG_WITH_NORM (by decide)).2.2

/-! ## The primitive codec -/

theorem encodeLE_length (w x : Nat) : (encodeLE w x).length = w := by
  induction w generalizing x with
  | zero => rfl
  | succ w ih => simp [encodeLE, ih]

theorem decodeLE_encodeLE (w x : Nat) : decodeLE (encodeLE w x) = x % 256 ^ w := by
  induction w generalizing x with
  | zero => simp [encodeLE, decodeLE, Nat.mod_one]
  | succ w ih =>
    simp only [encodeLE, decodeLE, ih]
    rw [pow_succ, Nat.mul_comm (256 ^ w) 256, Nat.mod_mul]

theorem encodeUInt_length (order : ByteOrder) (w x : Nat) :
    (encodeUInt order w x).length = w := by
  cases order <;> simp [encodeUInt, encodeLE_length]

theorem decodeUInt_encodeUInt (order : ByteOrder) (w x : Nat) (hx : x < 256 ^ w) :
    decodeUInt order (encodeUInt order w x) = x := by
  cases order <;>
    simp [encodeUInt, decodeUInt, decodeLE_encodeLE, Nat.mod_eq_of_lt hx]

theorem readBytes_append (n : Nat) (bs rest : List Nat) (h : bs.length = n) :
    readBytes n (bs ++ rest) = .ok (bs, rest) := by
  subst h
  simp [readBytes]

theorem readUInt_encodeUInt (order : ByteOrder) (w x : Nat) (rest : List Nat) :
    readBytes w (encodeUInt order w x ++ rest) = .ok (encodeUInt order w x, rest) :=
  readBytes_append w _ rest (encodeUInt_length order w x)

theorem read_value_encode (cfg : CodecConfig) (x : Nat) (rest : List Nat) (hx : x < 2 ^ 32) :
    read_value cfg (encodeUInt cfg.order 4 x ++ rest) = .ok (x, rest) := by
  have h256 : x < 256 ^ 4 := by
    have : (256 : Nat) ^ 4 = 2 ^ 32 := by norm_num
    omega
  simp only [read_value, readUInt_encodeUInt, decodeUInt_encodeUInt _ _ _ h256]

theorem writeValues_append (cfg : CodecConfig) (v : List Nat) (w : IOWriter) :
    writeValues cfg v w = w ++ writeValues cfg v [] := by
  induction v generalizing w with
  | nil => simp [writeValues]
  | cons x xs ih =>
    simp only [writeValues]
    rw [ih (write_value cfg x w), ih (write_value cfg x [])]
    simp [write_value, List.append_assoc]

theorem writeValues_cons (cfg : CodecConfig) (x : Nat) (xs : List Nat) :
    writeValues cfg (x :: xs) [] = encodeUInt cfg.order 4 x ++ writeValues cfg xs [] := by
  simp only [writeValues]
  rw [writeValues_append]
  simp [write_value]

theorem write_vector_eq (cfg : CodecConfig) (v : List Nat) (w : IOWriter) :
    write_vector cfg v w
      = w ++ (encodeUInt cfg.order cfg.countWidth v.length ++ writeValues cfg v []) := by
  simp only [write_vector]
  rw [writeValues_append, List.append_assoc]

theorem readValues_writeValues (cfg : CodecConfig) (v rest : List Nat)
    (hv : ∀ x ∈ v, x < 2 ^ 32) :
    readValues cfg v.length (writeValues cfg v [] ++ rest) = .ok (v, rest) := by
  induction v with
  | nil => simp [readValues, writeValues]
  | cons x xs ih =>
    have hx := hv x (List.mem_cons_self _ _)
    have hxs := ih (fun y hy => hv y (List.mem_cons_of_mem _ hy))
    simp only [List.length_cons, readValues, writeValues_cons, List.append_assoc,
      read_value_encode cfg x _ hx, hxs]

theorem isVector_iff (cfg : CodecConfig) (v : List Nat) :
    isVector cfg v = true ↔ (∀ x ∈ v, x < 2 ^ 32) ∧ v.length < 256 ^ cfg.countWidth := by
  simp [isVector]

/-- Within the bound, what `write_vector` wrote is read back by `read_vector`. -/
theorem read_vector_write_vector (cfg : CodecConfig) (v rest : List Nat)
    (hv : isVector cfg v = true) (hlen : v.length ≤ cfg.maxCount) :
    read_vector cfg (write_vector cfg v [] ++ rest) = .ok (v, rest) := by
  obtain ⟨hv, hrep⟩ := (isVector_iff cfg v).1 hv
  simp only [read_vector, write_vector_eq, List.nil_append, List.append_assoc,
    readUInt_encodeUInt, decodeUInt_encodeUInt _ _ _ hrep, hlen, if_true,
    readValues_writeValues cfg v rest hv]

theorem readScalars_scalarsBytes (cfg : CodecConfig) (ss : List Scalar) (rest : List Nat)
    (h : ∀ s ∈ ss, s.value < 256 ^ s.width) :
    readScalars cfg (ss.map Scalar.width) (scalarsBytes cfg ss ++ rest) = .ok (ss, rest) := by
  induction ss with
  | nil => simp [readScalars, scalarsBytes]
  | cons s ss ih =>
    have hs := h s (List.mem_cons_self _ _)
    have hss := ih (fun y hy => h y (List.mem_cons_of_mem _ hy))
    simp only [List.map_cons, scalarsBytes, readScalars, List.append_assoc,
      readUInt_encodeUInt, hss, decodeUInt_encodeUInt _ _ _ hs]

theorem readBulk_bulkBytes (cfg : CodecConfig) (bulk : List (List Nat)) (rest : List Nat)
    (hv : ∀ v ∈ bulk, isVector cfg v = true) (hlen : ∀ v ∈ bulk, v.length ≤ cfg.maxCount) :
    readBulk cfg false bulk.length (bulkBytes cfg bulk ++ rest) = .ok (bulk, rest) := by
  induction bulk with
  | nil => simp [readBulk, bulkBytes]
  | cons v vs ih =>
    have h1 := read_vector_write_vector cfg v (bulkBytes cfg vs ++ rest)
      (hv v (List.mem_cons_self _ _)) (hlen v (List.mem_cons_self _ _))
    have h2 := ih (fun y hy => hv y (List.mem_cons_of_mem _ hy))
      (fun y hy => hlen y (List.mem_cons_of_mem _ hy))
    simp only [List.length_cons, bulkBytes, readBulk, List.append_assoc, h1, h2]
    simp

theorem skipsBulk_zero (fam : Family) : skipsBulk 0 fam = false := by
  cases fam <;> decide

mutual
/-- A supported entity within the allocation bound is written, and what was written is
read back as the same entity, leaving the reader just behind it. -/
theorem entity_roundtrip (cfg : CodecConfig) (reg : Registry) :
    ∀ (V : Entity) (fam : Family), supported cfg reg fam V = true →
      withinBound cfg V = true →
      ∃ bytes, entityBytes cfg reg V = .ok bytes ∧ V.depth ≤ bytes.length ∧
        ∀ fuel rest, V.depth ≤ fuel →
          readEntity cfg reg 0 fuel fam (bytes ++ rest) = .ok (V, rest)
  | .mk family tag scalars subs bulk, fam, hs, hb => by
    simp only [supported, Bool.and_eq_true, decide_eq_true_eq] at hs
    obtain ⟨⟨hfam, htag⟩, hrest⟩ := hs
    subst hfam
    cases hreg : reg family tag with
    | none => rw [hreg] at hrest; cases hrest
    | some lay =>
      rw [hreg] at hrest
      simp only [Bool.and_eq_true, decide_eq_true_eq, List.all_eq_true] at hrest
      obtain ⟨⟨⟨⟨hw, hsc⟩, hbc⟩, hbu⟩, hsubs⟩ := hrest
      simp only [withinBound, Bool.and_eq_true, List.all_eq_true, decide_eq_true_eq] at hb
      obtain ⟨hbl, hbs⟩ := hb
      obtain ⟨sb, hsb, hdep, hread⟩ :=
        subs_roundtrip cfg reg subs (lay.subFamilies (scalars.map Scalar.value)) hsubs hbs
      refine ⟨encodeUInt cfg.order 4 tag ++ scalarsBytes cfg scalars ++ sb
        ++ bulkBytes cfg bulk, by simp only [entityBytes, hreg, hsb], ?_, ?_⟩
      · simp only [Entity.depth, List.length_append, encodeUInt_length]
        omega
      · intro fuel rest hfuel
        cases fuel with
        | zero => simp [Entity.depth] at hfuel
        | succ fuel =>
          have hfuel2 : depthList subs ≤ fuel := by
            simp only [Entity.depth] at hfuel
            omega
          simp only [readEntity, List.append_assoc, read_value_encode cfg tag _ htag, hreg,
            hw, readScalars_scalarsBytes cfg scalars _ hsc, hread fuel _ hfuel2, hbc,
            skipsBulk_zero, readBulk_bulkBytes cfg bulk rest hbu hbl]
/-- The same for the owned sub-entities, in field order. -/
theorem subs_roundtrip (cfg : CodecConfig) (reg : Registry) :
    ∀ (Vs : List Entity) (fams : List Family), supportedList cfg reg fams Vs = true →
      withinBoundList cfg Vs = true →
      ∃ bytes, subsBytes cfg reg Vs = .ok bytes ∧ depthList Vs ≤ bytes.length ∧
        ∀ fuel rest, depthList Vs ≤ fuel →
          readSubsWith (readEntity cfg reg 0 fuel) fams (bytes ++ rest) = .ok (Vs, rest)
  | [], [], _, _ => ⟨[], by simp only [subsBytes], by simp [depthList], by
      intro fuel rest _
      simp [readSubsWith]⟩
  | [], _ :: _, hs, _ => by simp [supportedList] at hs
  | _ :: _, [], hs, _ => by simp [supportedList] at hs
  | V :: Vs, fam :: fams, hs, hb => by
    simp only [supportedList, Bool.and_eq_true] at hs
    simp only [withinBoundList, Bool.and_eq_true] at hb
    obtain ⟨a, ha, hda, hra⟩ := entity_roundtrip cfg reg V fam hs.1 hb.1
    obtain ⟨b, hb2, hdb, hrb⟩ := subs_roundtrip cfg reg Vs fams hs.2 hb.2
    refine ⟨a ++ b, by simp only [subsBytes, ha, hb2], ?_, ?_⟩
    · simp only [depthList, List.length_append]
      omega
    · intro fuel rest hfuel
      simp only [depthList] at hfuel
      have h1 : V.depth ≤ fuel := by omega
      have h2 : depthList Vs ≤ fuel := by omega
      simp only [readSubsWith, List.append_assoc, hra fuel _ h1, hrb fuel _ h2]
end

/-! ## What the decoder can return -/

theorem readBytes_length (n : Nat) (f : IOReader) (bs : List Nat) (f1 : IOReader)
    (h : readBytes n f = .ok (bs, f1)) : f1.length + n = f.length := by
  simp only [readBytes] at h
  split at h
  · simp only [Except.ok.injEq, Prod.mk.injEq] at h
    rw [← h.2, List.length_drop]
    omega
  · cases h

theorem read_value_length (cfg : CodecConfig) (f : IOReader) (x : Nat) (f1 : IOReader)
    (h : read_value cfg f = .ok (x, f1)) : f1.length + 4 = f.length := by
  simp only [read_value] at h
  split at h
  · cases h
  · rename_i bs f2 hb
    simp only [Except.ok.injEq, Prod.mk.injEq] at h
    rw [← h.2]
    exact readBytes_length 4 f bs f2 hb

theorem readScalars_le (cfg : CodecConfig) (ws : List Nat) (f : IOReader)
    (ss : List Scalar) (f1 : IOReader) (h : readScalars cfg ws f = .ok (ss, f1)) :
    f1.length ≤ f.length := by
  induction ws generalizing f ss f1 with
  | nil =>
    simp only [readScalars, Except.ok.injEq, Prod.mk.injEq] at h
    rw [h.2]
  | cons w ws ih =>
    simp only [readScalars] at h
    split at h
    · cases h
    · rename_i bs f2 hb
      split at h
      · cases h
      · rename_i ss2 f3 hrec
        simp only [Except.ok.injEq, Prod.mk.injEq] at h
        have h1 := readBytes_length w f bs f2 hb
        have h2 := ih f2 ss2 f3 hrec
        rw [← h.2]
        omega

theorem readValues_le (cfg : CodecConfig) (n : Nat) (f : IOReader) (v : List Nat)
    (f1 : IOReader) (h : readValues cfg n f = .ok (v, f1)) : f1.length ≤ f.length := by
  induction n generalizing f v f1 with
  | zero =>
    simp only [readValues, Except.ok.injEq, Prod.mk.injEq] at h
    rw [h.2]
  | succ n ih =>
    simp only [readValues] at h
    split at h
    · cases h
    · rename_i x f2 hx
      split at h
      · cases h
      · rename_i xs f3 hrec
        simp only [Except.ok.injEq, Prod.mk.injEq] at h
        have h1 := read_value_length cfg f x f2 hx
        have h2 := ih f2 xs f3 hrec
        rw [← h.2]
        omega

theorem read_vector_le (cfg : CodecConfig) (f : IOReader) (v : List Nat) (f1 : IOReader)
    (h : read_vector cfg f = .ok (v, f1)) : f1.length ≤ f.length := by
  simp only [read_vector] at h
  split at h
  · cases h
  · rename_i cb f2 hb
    split at h
    · have h1 := readBytes_length _ f cb f2 hb
      have h2 := readValues_le cfg _ f2 v f1 h
      omega
    · cases h

theorem readBulk_le (cfg : CodecConfig) (skip : Bool) (n : Nat) (f : IOReader)
    (b : List (List Nat)) (f1 : IOReader) (h : readBulk cfg skip n f = .ok (b, f1)) :
    f1.length ≤ f.length := by
  induction n generalizing f b f1 with
  | zero =>
    simp only [readBulk, Except.ok.injEq, Prod.mk.injEq] at h
    rw [h.2]
  | succ n ih =>
    simp only [readBulk] at h
    split at h
    · cases h
    · rename_i v f2 hv
      split at h
      · cases h
      · rename_i vs f3 hrec
        simp only [Except.ok.injEq, Prod.mk.injEq] at h
        have h1 := read_vector_le cfg f v f2 hv
        have h2 := ih f2 vs f3 hrec
        rw [← h.2]
        omega

theorem readSubsWith_le (rd : Family → IOReader → Except IOError (Entity × IOReader))
    (hrd : ∀ fam f e f1, rd fam f = .ok (e, f1) → f1.length ≤ f.length)
    (fams : List Family) (f : IOReader) (es : List Entity) (f1 : IOReader)
    (h : readSubsWith rd fams f = .ok (es, f1)) : f1.length ≤ f.length := by
  induction fams generalizing f es f1 with
  | nil =>
    simp only [readSubsWith, Except.ok.injEq, Prod.mk.injEq] at h
    rw [h.2]
  | cons fam fams ih =>
    simp only [readSubsWith] at h
    split at h
    · cases h
    · rename_i e f2 he
      split at h
      · cases h
      · rename_i es2 f3 hrec
        simp only [Except.ok.injEq, Prod.mk.injEq] at h
        have h1 := hrd fam f e f2 he
        have h2 := ih f2 es2 f3 hrec
        rw [← h.2]
        omega

theorem readSubsWith_congr (rd1 rd2 : Family → IOReader → Except IOError (Entity × IOReader))
    (n : Nat) (hrd : ∀ fam f e f1, rd1 fam f = .ok (e, f1) → f1.length ≤ f.length)
    (heq : ∀ fam f, f.length ≤ n → rd1 fam f = rd2 fam f)
    (fams : List Family) (f : IOReader) (hf : f.length ≤ n) :
    readSubsWith rd1 fams f = readSubsWith rd2 fams f := by
  induction fams generalizing f with
  | nil => rfl
  | cons fam fams ih =>
    simp only [readSubsWith]
    rw [← heq fam f hf]
    cases h1 : rd1 fam f with
    | error e => rfl
    | ok p =>
      obtain ⟨e, f2⟩ := p
      have hle := hrd fam f e f2 h1
      simp only [ih f2 (by omega)]

/-- Reading never puts bytes back: the reader an entity decoder returns is no longer
than the one it was given. -/
theorem readEntity_le (cfg : CodecConfig) (reg : Registry) (io_flags : Int) (fuel : Nat) :
    ∀ (fam : Family) (f : IOReader) (e : Entity) (f1 : IOReader),
      readEntity cfg reg io_flags fuel fam f = .ok (e, f1) → f1.length ≤ f.length := by
  induction fuel with
  | zero =>
    intro fam f e f1 h
    simp only [readEntity] at h
    cases h
  | succ fuel ih =>
    intro fam f e f1 h
    simp only [readEntity] at h
    split at h
    · cases h
    · rename_i tag f2 ht
      split at h
      · cases h
      · rename_i lay hl
        split at h
        · cases h
        · rename_i ss f3 hs
          split at h
          · cases h
          · rename_i subs f4 hsub
            split at h
            · cases h
            · rename_i bulk f5 hb
              simp only [Except.ok.injEq, Prod.mk.injEq] at h
              have h1 := read_value_length cfg f tag f2 ht
              have h2 := readScalars_le cfg _ f2 ss f3 hs
              have h3 := readSubsWith_le _ ih _ f3 subs f4 hsub
              have h4 := readBulk_le cfg _ _ f4 bulk f5 hb
              rw [← h.2]
              omega

/-- Any two depth bounds above the length of the stream give the same result: every
nesting level consumes its 4-byte tag, so the bound is never what stops the decoder. -/
theorem readEntity_fuel_irrelevant (cfg : CodecConfig) (reg : Registry) (io_flags : Int)
    (fuel1 : Nat) :
    ∀ (fuel2 : Nat) (fam : Family) (f : IOReader), f.length < fuel1 → f.length < fuel2 →
      readEntity cfg reg io_flags fuel1 fam f = readEntity cfg reg io_flags fuel2 fam f := by
  induction fuel1 with
  | zero => intro fuel2 fam f h1; omega
  | succ fuel1 ih =>
    intro fuel2 fam f h1 h2
    cases fuel2 with
    | zero => omega
    | succ fuel2 =>
      simp only [readEntity]
      cases ht : read_value cfg f with
      | error e => rfl
      | ok p =>
        obtain ⟨tag, f2⟩ := p
        have hlen := read_value_length cfg f tag f2 ht
        dsimp only
        cases hl : reg fam tag with
        | none => rfl
        | some lay =>
          dsimp only
          cases hs : readScalars cfg lay.scalarWidths f2 with
          | error e => rfl
          | ok q =>
            obtain ⟨ss, f3⟩ := q
            have hlen2 := readScalars_le cfg _ f2 ss f3 hs
            have hsub := readSubsWith_congr (readEntity cfg reg io_flags fuel1)
              (readEntity cfg reg io_flags fuel2) f3.length
              (readEntity_le cfg reg io_flags fuel1)
              (fun fam2 g hg => ih fuel2 fam2 g (by omega) (by omega))
              (lay.subFamilies (ss.map Scalar.value)) f3 (le_refl _)
            dsimp only
            rw [hsub]

/-- The entry point `read_entity`, which bounds the depth by the length of the stream
plus one, computes what the decoder computes under any larger bound. -/
theorem readEntity_eq_read_entity (cfg : CodecConfig) (reg : Registry) (io_flags : Int)
    (fuel : Nat) (fam : Family) (f : IOReader) (h : f.length < fuel) :
    readEntity cfg reg io_flags fuel fam f = read_entity cfg reg fam f io_flags :=
  readEntity_fuel_irrelevant cfg reg io_flags fuel (f.length + 1) fam f h (by omega)

/-! ## The claims about the declarations and the flag values -/

/-- C6: the default flag value selects no load behaviour. The functions that take an
`io_flags` parameter are `write_index`, `read_index`, `read_index_binary` and
`read_InvertedLists`, every overload of them defaults it to 0, each of the nine flag
constants `F` is non-zero with `(0 & F) == 0`, and so with the default no flag passes
either the any-bit or the full-mask test. -/
theorem default_flags_select_nothing :
    opsWithFlags = [Op.write_index, Op.read_index, Op.read_index_binary,
        Op.read_InvertedLists] ∧
      (∀ d ∈ declarations, ∀ v ∈ d.io_flags, v = 0) ∧
      allFlags.length = 9 ∧
      (∀ F ∈ allFlags, F ≠ 0 ∧ Int.land 0 F = 0) ∧
      (∀ d ∈ declarations, ∀ v ∈ d.io_flags, ∀ F ∈ allFlags,
        hasAnyBit v F = false ∧ hasMask v F = false) := by
  decide

/-- C7 as stated fails: not every read/write operation of the four families has an
overload for each of the three media; `write_VectorTransform` has none taking a
`FILE*`. -/
theorem not_every_family_op_on_every_medium :
    ¬ (∀ op ∈ familyOps, ∀ m ∈ allMedia, hasOverload op m = true) ∧
      hasOverload Op.write_VectorTransform Medium.fileHandle = false := by
  decide

/-- C7, amended: `write_index`, `read_index`, `write_index_binary` and
`read_index_binary` have an overload for each of the three media (file name, `FILE*`,
`IOReader*`/`IOWriter*`); `write_VectorTransform`, `read_VectorTransform`,
`write_ProductQuantizer` and `read_ProductQuantizer` have one taking a file name and
one taking a generic reader/writer, and none taking a `FILE*`. -/
theorem family_op_media :
    (∀ op ∈ [Op.write_index, Op.read_index, Op.write_index_binary, Op.read_index_binary],
        ∀ m ∈ allMedia, hasOverload op m = true) ∧
      (∀ op ∈ [Op.write_VectorTransform, Op.read_VectorTransform,
          Op.write_ProductQuantizer, Op.read_ProductQuantizer],
        hasOverload op Medium.path = true ∧ hasOverload op Medium.stream = true ∧
          hasOverload op Medium.fileHandle = false) := by
  decide

/-- C8: the implication mmap => skip-ivf-data is strict. No OR-combination `f` of the
eight non-mmap flags passes the mask test `(f & IO_FLAG_MMAP) == IO_FLAG_MMAP`, yet
`IO_FLAG_SKIP_IVF_DATA & IO_FLAG_MMAP` is non-zero: the any-bit test reports mmap for
`f = IO_FLAG_SKIP_IVF_DATA` and the full-mask test does not. -/
theorem mmap_is_strict (S : List Int) (hS : ∀ x ∈ S, x ∈ nonMmapFlags) :
    Int.land (orAll S) IO_FLAG_MMAP ≠ IO_FLAG_MMAP ∧
      Int.land IO_FLAG_SKIP_IVF_DATA IO_FLAG_MMAP ≠ 0 ∧
      hasAnyBit IO_FLAG_SKIP_IVF_DATA IO_FLAG_MMAP = true ∧
      hasMask IO_FLAG_SKIP_IVF_DATA IO_FLAG_MMAP = false := by
  refine ⟨?_, by decide, by decide, by decide⟩
  have hpos : ∀ x ∈ nonMmapFlags, 0 ≤ x ∧ x < 2 ^ 10 := by decide
  obtain ⟨h0, hlt⟩ := orAll_lt 10 S (fun x hx => hpos x (hS x hx))
  obtain ⟨n, hn⟩ := Int.eq_ofNat_of_zero_le h0
  have hM : IO_FLAG_MMAP = ((1684996104 : Nat) : Int) := by decide
  rw [hn] at hlt ⊢
  rw [hM, land_coe]
  have hn2 : n < 2 ^ 10 := by exact_mod_cast hlt
  have hle : n &&& 1684996104 ≤ n := Nat.and_le_left
  intro h
  have h2 : n &&& 1684996104 = 1684996104 := by exact_mod_cast h
  omega

/-- Witness of C8 at the OR of all eight non-mmap flags. -/
theorem mmap_is_strict_witness :
    Int.land (orAll nonMmapFlags) IO_FLAG_MMAP ≠ IO_FLAG_MMAP :=
  (mmap_is_strict nonMmapFlags (fun _ hx => hx)).1

/-- C9: `IO_FLAG_MMAP_IFC` is independent of `IO_FLAG_MMAP`. It shares no bit with
`IO_FLAG_MMAP` nor with `IO_FLAG_SKIP_IVF_DATA`, so the flag set `IO_FLAG_MMAP_IFC`
passes neither the mmap mask test nor the skip-ivf-data test, and the flag set
`IO_FLAG_MMAP` does not have the mmap-with-flat-codes bit. -/
theorem mmap_ifc_independent :
    Int.land IO_FLAG_MMAP_IFC IO_FLAG_MMAP = 0 ∧
      Int.land IO_FLAG_MMAP_IFC IO_FLAG_SKIP_IVF_DATA = 0 ∧
      hasMask IO_FLAG_MMAP_IFC IO_FLAG_MMAP = false ∧
      hasMask IO_FLAG_MMAP_IFC IO_FLAG_SKIP_IVF_DATA = false ∧
      hasAnyBit IO_FLAG_MMAP_IFC IO_FLAG_SKIP_IVF_DATA = false ∧
      hasAnyBit IO_FLAG_MMAP IO_FLAG_MMAP_IFC = false ∧
      hasMask IO_FLAG_MMAP IO_FLAG_MMAP_IFC = false := by
  decide

/-- C10 as stated fails: `IO_FLAG_MMAP` is `0x646f0008`, and that is not the decimal
1685004296 (which is `0x646f2008`). -/
theorem mmap_value_is_not_1685004296 :
    IO_FLAG_MMAP = 0x646f0008 ∧ IO_FLAG_MMAP ≠ 1685004296 ∧
      (1685004296 : Int) = 0x646f2008 := by
  decide

/-- C10, amended: `IO_FLAG_MMAP` equals `0x646f0008` (1684996104), and the bitwise OR
of any collection of the nine flag constants lies in `0 .. 2^31 - 1`, so it is a
non-negative 32-bit signed `int`. -/
theorem flags_fit_int (S : List Int) (hS : ∀ x ∈ S, x ∈ allFlags) :
    IO_FLAG_MMAP = 0x646f0008 ∧ IO_FLAG_MMAP = 1684996104 ∧
      0 ≤ orAll S ∧ orAll S ≤ 2 ^ 31 - 1 := by
  have hpos : ∀ x ∈ allFlags, 0 ≤ x ∧ x < 2 ^ 31 := by decide
  obtain ⟨h0, hlt⟩ := orAll_lt 31 S (fun x hx => hpos x (hS x hx))
  exact ⟨by decide, by decide, h0, by omega⟩

/-- Witness of C10 (amended) at the OR of all nine flags, `0x646f033f`. -/
theorem flags_fit_int_witness :
    orAll allFlags = 0x646f033f ∧ 0 ≤ orAll allFlags ∧ orAll allFlags ≤ 2 ^ 31 - 1 :=
  ⟨by decide, (flags_fit_int allFlags (fun _ hx => hx)).2.2⟩

/-! ## The claims about the codec -/

/-- C4: unknown tag rejection. When the leading tag of the stream is not registered for
the family being read, `read_index` (and likewise `read_index_binary`,
`read_VectorTransform`, `read_InvertedLists`) fails with the unsupported-format error
naming that tag, whatever the flags, and so returns no object at all. -/
theorem unknown_tag_rejected (cfg : CodecConfig) (reg : Registry) (io_flags : Int)
    (reader rest : IOReader) (tag : Nat) (htag : read_value cfg reader = .ok (tag, rest)) :
    (reg .index tag = none →
        read_index cfg reg reader io_flags = .error (.unsupportedFormat tag)) ∧
      (reg .indexBinary tag = none →
        read_index_binary cfg reg reader io_flags = .error (.unsupportedFormat tag)) ∧
      (reg .vectorTransform tag = none →
        read_VectorTransform cfg reg reader = .error (.unsupportedFormat tag)) ∧
      (reg .invertedLists tag = none →
        read_InvertedLists cfg reg reader io_flags = .error (.unsupportedFormat tag)) := by
  refine ⟨?_, ?_, ?_, ?_⟩ <;> intro h <;>
    simp only [read_index, read_index_binary, read_VectorTransform, read_InvertedLists,
      read_entity, readEntity, htag, h]

/-- Witness of C4: a stream whose leading tag is 12, which the example registry does
not know, read with the mmap flag. -/
theorem unknown_tag_rejected_witness :
    read_value exampleConfig [12, 0, 0, 0, 5] = .ok (12, [5]) ∧
      exampleRegistry .index 12 = none ∧
      read_index exampleConfig exampleRegistry [12, 0, 0, 0, 5] IO_FLAG_MMAP
        = .error (.unsupportedFormat 12) :=
  ⟨rfl, rfl,
    (unknown_tag_rejected exampleConfig exampleRegistry IO_FLAG_MMAP [12, 0, 0, 0, 5] [5] 12
      rfl).1 rfl⟩

end faiss
